import Mathlib

set_option maxRecDepth 8000

/-! Shallow embedding of the DOS MZ executable pipeline of this repository
(services/DosExecutableGenerator, services/WasmCompilerService,
services/CompilerService).  Byte buffers are lists of natural numbers,
multi-byte header fields are written and read in little-endian order as by
DataView with littleEndian = true, and every service method is modelled as a
pure function over these buffers. -/

/-- Little-endian 16-bit read at a byte offset (DataView.getUint16 with
littleEndian = true); out-of-range bytes read as 0, the embedded code only
reads in bounds. -/
def readUint16 (buf : List Nat) (off : Nat) : Nat :=
  buf.getD off 0 + 256 * buf.getD (off + 1) 0

/-- Little-endian 16-bit write at a byte offset (DataView.setUint16 with
littleEndian = true): the stored bytes are the value's low two base-256
digits, so the value is truncated to 16 bits exactly as in JavaScript. -/
def writeUint16 (buf : List Nat) (off v : Nat) : List Nat :=
  (buf.set off (v % 256)).set (off + 1) (v / 256 % 256)

/-- A DOS relocation entry: a 16-bit offset and a 16-bit segment value. -/
structure RelocationEntry where
  offset : Nat
  segment : Nat
deriving DecidableEq, Repr

/-- The parsed MZ header record returned by getMZInfo. -/
structure MZHeader where
  signature : Nat
  bytesOnLastPage : Nat
  pagesInFile : Nat
  relocations : Nat
  headerParagraphs : Nat
  minExtraParagraphs : Nat
  maxExtraParagraphs : Nat
  initialSS : Nat
  initialSP : Nat
  checksum : Nat
  initialIP : Nat
  initialCS : Nat
  relocationTableOffset : Nat
  overlayNumber : Nat
deriving DecidableEq, Repr

/-- MZConfig as consumed by createEnhancedMZHeader: codeSize is required,
the optional TypeScript fields are Option values whose defaults are applied
at the use site, exactly as the destructuring defaults do. -/
structure MZConfig where
  codeSize : Nat
  dataSize : Option Nat := none
  stackSize : Option Nat := none
  relocations : Option (List RelocationEntry) := none
  entryPoint : Option Nat := none
  calculateChecksum : Option Bool := none
deriving Repr

/-- Partial&lt;MZConfig&gt; as accepted by createExecutableWithRelocations:
every field, codeSize included, may be absent; an absent field does not
override the spread base. -/
structure PartialMZConfig where
  codeSize : Option Nat := none
  dataSize : Option Nat := none
  stackSize : Option Nat := none
  relocations : Option (List RelocationEntry) := none
  entryPoint : Option Nat := none
  calculateChecksum : Option Bool := none
deriving Repr

namespace DosSystemCalls

/-- DosSystemCalls.generateExit: MOV AH,4Ch; MOV AL,exitCode; INT 21h.
Uint8Array construction truncates the exit code to one byte. -/
def generateExit (exitCode : Nat) : List Nat :=
  [0xB4, 0x4C, 0xB0, exitCode % 256, 0xCD, 0x21]

end DosSystemCalls

namespace DosExecutableGenerator

/-- The bytesOnLastPage expression `totalFileSize % 512 || 512`: the JS `||`
replaces a zero remainder by 512. -/
def mzBLP (t : Nat) : Nat := if t % 512 = 0 then 512 else t % 512

/-- The pages expression `Math.ceil(totalFileSize / 512)` on naturals. -/
def mzPages (t : Nat) : Nat := (t + 511) / 512

/-- checksumLoop buffer i sum: the summing loop of calculateChecksum.  It
walks 16-bit little-endian words two bytes at a time, skips the word at byte
offset 18 (the checksum field), and masks the accumulator to 16 bits at each
step (`sum &= 0xFFFF`).  It is only ever applied to even-length buffers
(the caller pads first), so the catch-all arm is unreachable there. -/
def checksumLoop : List Nat → Nat → Nat → Nat
  | b0 :: b1 :: rest, i, sum =>
      if i = 18 then checksumLoop rest (i + 2) sum
      else checksumLoop rest (i + 2) ((sum + (b0 + 256 * b1)) % 65536)
  | _, _, sum => sum

/-- The padding step of calculateChecksum: append one zero byte when the
buffer length is odd. -/
def evenPad (buf : List Nat) : List Nat :=
  if buf.length % 2 = 0 then buf else buf ++ [0]

/-- DosExecutableGenerator.calculateChecksum: sum all 16-bit words of the
(padded) buffer except the checksum field itself, then negate in 16 bits
(`(-sum) & 0xFFFF`). -/
def calculateChecksum (executable : List Nat) : Nat :=
  (65536 - checksumLoop (evenPad executable) 0 0) % 65536

/-- DosExecutableGenerator.applyChecksum: store the computed checksum into
the header's checksum field at byte offset 18. -/
def applyChecksum (executable : List Nat) : List Nat :=
  writeUint16 executable 18 (calculateChecksum executable)

/-- DosExecutableGenerator.createEnhancedMZHeader: a 32-byte header buffer
with all fields written little-endian at their fixed offsets. -/
def createEnhancedMZHeader (config : MZConfig) : List Nat :=
  let codeSize := config.codeSize
  let dataSize := config.dataSize.getD 0
  let stackSize := config.stackSize.getD 512
  let relocations := config.relocations.getD []
  let entryPoint := config.entryPoint.getD 0
  let relocationCount := relocations.length
  let headerSize := 32
  let headerParagraphs := headerSize / 16
  let imageSize := codeSize + dataSize
  let totalFileSize := headerSize + imageSize
  let pages := mzPages totalFileSize
  let bytesOnLastPage := mzBLP totalFileSize
  let minExtraParagraphs := 0
  let maxExtraParagraphs := 0xFFFF
  let imageParagraphs := (imageSize + 15) / 16
  let initialSS := imageParagraphs
  let initialSP := stackSize
  let initialCS := 0
  let initialIP := entryPoint
  let relocationTableOffset := if relocationCount > 0 then headerSize else 28
  let h := List.replicate headerSize 0
  let h := writeUint16 h 0 0x5A4D
  let h := writeUint16 h 2 bytesOnLastPage
  let h := writeUint16 h 4 pages
  let h := writeUint16 h 6 relocationCount
  let h := writeUint16 h 8 headerParagraphs
  let h := writeUint16 h 10 minExtraParagraphs
  let h := writeUint16 h 12 maxExtraParagraphs
  let h := writeUint16 h 14 initialSS
  let h := writeUint16 h 16 initialSP
  let h := writeUint16 h 18 0
  let h := writeUint16 h 20 initialIP
  let h := writeUint16 h 22 initialCS
  let h := writeUint16 h 24 relocationTableOffset
  let h := writeUint16 h 26 0
  h

/-- DosExecutableGenerator.createMZHeader, the legacy-compatible entry that
forwards to the enhanced header with only codeSize set. -/
def createMZHeader (codeSize : Nat) : List Nat :=
  createEnhancedMZHeader { codeSize := codeSize }

/-- DosExecutableGenerator.generateRelocationTable: each entry becomes four
bytes, a little-endian offset then a little-endian segment, entry i at byte
offset 4*i of the table. -/
def generateRelocationTable : List RelocationEntry → List Nat
  | [] => []
  | e :: rest =>
      [e.offset % 256, e.offset / 256 % 256, e.segment % 256, e.segment / 256 % 256] ++
        generateRelocationTable rest

/-- DosExecutableGenerator.createMZExecutable: header, then the relocation
table when any relocations exist, then the code bytes; the checksum is
applied to the assembled buffer when requested. -/
def createMZExecutable (config : MZConfig) (code : List Nat) : List Nat :=
  let relocations := config.relocations.getD []
  let calcChecksum := config.calculateChecksum.getD false
  let header := createEnhancedMZHeader config
  let relocationTable :=
    if relocations.length > 0 then generateRelocationTable relocations else []
  let executable := header ++ relocationTable ++ code
  if calcChecksum then applyChecksum executable else executable

/-- DosExecutableGenerator.createExecutableWithRelocations: spreads the
user-supplied options over the base config `\x7b codeSize: code.length,
relocations \x7d`, a present option field overriding the base. -/
def createExecutableWithRelocations (code : List Nat)
    (relocations : List RelocationEntry) (options : PartialMZConfig) : List Nat :=
  createMZExecutable
    { codeSize := options.codeSize.getD code.length
      dataSize := options.dataSize
      stackSize := options.stackSize
      relocations := some (options.relocations.getD relocations)
      entryPoint := options.entryPoint
      calculateChecksum := options.calculateChecksum } code

/-- DosExecutableGenerator.isValidMZExecutable: length at least 28 and the
little-endian word at offset 0 equals the MZ signature 0x5A4D. -/
def isValidMZExecutable (buffer : List Nat) : Bool :=
  if buffer.length < 28 then false else readUint16 buffer 0 == 0x5A4D

/-- DosExecutableGenerator.getMZInfo: parse all fourteen header fields, or
none when the buffer is not a valid executable. -/
def getMZInfo (buffer : List Nat) : Option MZHeader :=
  if isValidMZExecutable buffer then
    some
      { signature := readUint16 buffer 0
        bytesOnLastPage := readUint16 buffer 2
        pagesInFile := readUint16 buffer 4
        relocations := readUint16 buffer 6
        headerParagraphs := readUint16 buffer 8
        minExtraParagraphs := readUint16 buffer 10
        maxExtraParagraphs := readUint16 buffer 12
        initialSS := readUint16 buffer 14
        initialSP := readUint16 buffer 16
        checksum := readUint16 buffer 18
        initialIP := readUint16 buffer 20
        initialCS := readUint16 buffer 22
        relocationTableOffset := readUint16 buffer 24
        overlayNumber := readUint16 buffer 26 }
  else none

/-- The entry-reading loop of getRelocationEntries: first argument of the
recursion is the number of entries still to read, second the running entry
index i; a 4-byte entry that would extend past the buffer end stops the
loop. -/
def readRelocLoop (executable : List Nat) (tableOff : Nat) :
    Nat → Nat → List RelocationEntry
  | 0, _ => []
  | k + 1, i =>
      let entryOffset := tableOff + i * 4
      if executable.length < entryOffset + 4 then []
      else
        { offset := readUint16 executable entryOffset
          segment := readUint16 executable (entryOffset + 2) } ::
          readRelocLoop executable tableOff k (i + 1)

/-- DosExecutableGenerator.getRelocationEntries: none on an invalid buffer,
an empty list when the header declares zero relocations, else the entries
read from the declared relocation table offset. -/
def getRelocationEntries (executable : List Nat) : Option (List RelocationEntry) :=
  match getMZInfo executable with
  | none => none
  | some info =>
      if info.relocations = 0 then some []
      else some (readRelocLoop executable info.relocationTableOffset info.relocations 0)

end DosExecutableGenerator

/-! Normal form of the enhanced header: the 32 bytes it consists of, as a
function of total file size, relocation count, image paragraphs, stack size
and entry point. -/

/-- The 32 bytes of the enhanced MZ header, written out explicitly. -/
def hdrBytes (t rc ipar sp ip : Nat) : List Nat :=
  [0x4D, 0x5A,
   DosExecutableGenerator.mzBLP t % 256, DosExecutableGenerator.mzBLP t / 256 % 256,
   DosExecutableGenerator.mzPages t % 256, DosExecutableGenerator.mzPages t / 256 % 256,
   rc % 256, rc / 256 % 256,
   2, 0,
   0, 0,
   0xFF, 0xFF,
   ipar % 256, ipar / 256 % 256,
   sp % 256, sp / 256 % 256,
   0, 0,
   ip % 256, ip / 256 % 256,
   0, 0,
   (if rc > 0 then 32 else 28) % 256, (if rc > 0 then 32 else 28) / 256 % 256,
   0, 0, 0, 0, 0, 0]

set_option maxHeartbeats 1000000 in
/-- The enhanced header evaluates to its 32 explicit bytes. -/
theorem createEnhancedMZHeader_eq (config : MZConfig) :
    DosExecutableGenerator.createEnhancedMZHeader config =
      hdrBytes (32 + (config.codeSize + config.dataSize.getD 0))
        (config.relocations.getD []).length
        ((config.codeSize + config.dataSize.getD 0 + 15) / 16)
        (config.stackSize.getD 512)
        (config.entryPoint.getD 0) := by
  apply List.ext_getElem
  · simp [DosExecutableGenerator.createEnhancedMZHeader, writeUint16, hdrBytes]
  · intro idx hi1 hi2
    have hb : idx < 32 := by
      simpa [DosExecutableGenerator.createEnhancedMZHeader, writeUint16] using hi1
    simp only [DosExecutableGenerator.createEnhancedMZHeader, writeUint16]
    interval_cases idx <;> simp [List.getElem_set, hdrBytes]

/-- The explicit header always has 32 bytes. -/
theorem hdrBytes_length (t rc ipar sp ip : Nat) :
    (hdrBytes t rc ipar sp ip).length = 32 := rfl

/-- Combining the two little-endian digit bytes of a value recovers the
value modulo 2^16. -/
theorem two_byte_mod (n : Nat) : n % 256 + 256 * (n / 256 % 256) = n % 65536 := by
  omega

/-- The relocation table holds four bytes per entry. -/
theorem generateRelocationTable_length (R : List RelocationEntry) :
    (DosExecutableGenerator.generateRelocationTable R).length = 4 * R.length := by
  induction R with
  | nil => rfl
  | cons e rest ih =>
      simp [DosExecutableGenerator.generateRelocationTable, ih]
      omega

/-- createExecutableWithRelocations with empty options is the explicit
header followed by the relocation table followed by the code bytes. -/
theorem createExecutableWithRelocations_eq (code : List Nat) (R : List RelocationEntry) :
    DosExecutableGenerator.createExecutableWithRelocations code R {} =
      hdrBytes (32 + code.length) R.length ((code.length + 15) / 16) 512 0 ++
        (DosExecutableGenerator.generateRelocationTable R ++ code) := by
  have htab : (if R.length > 0 then DosExecutableGenerator.generateRelocationTable R
      else []) = DosExecutableGenerator.generateRelocationTable R := by
    cases R with
    | nil => simp [DosExecutableGenerator.generateRelocationTable]
    | cons e rest => simp
  have h := createEnhancedMZHeader_eq
    { codeSize := code.length, relocations := some R : MZConfig }
  simp only [DosExecutableGenerator.createExecutableWithRelocations,
    DosExecutableGenerator.createMZExecutable, Option.getD] at *
  simp [h, htab, List.append_assoc]

/-- Reading the signature word of an assembled image yields 0x5A4D. -/
theorem readUint16_hdr_0 (t rc ipar sp ip : Nat) (rest : List Nat) :
    readUint16 (hdrBytes t rc ipar sp ip ++ rest) 0 = 0x5A4D := by
  have h : readUint16 (hdrBytes t rc ipar sp ip ++ rest) 0 = 77 + 256 * 90 := rfl
  rw [h]

/-- Reading bytesOnLastPage (offset 2) yields the stored value mod 2^16. -/
theorem readUint16_hdr_2 (t rc ipar sp ip : Nat) (rest : List Nat) :
    readUint16 (hdrBytes t rc ipar sp ip ++ rest) 2 =
      DosExecutableGenerator.mzBLP t % 65536 := by
  have h : readUint16 (hdrBytes t rc ipar sp ip ++ rest) 2 =
      DosExecutableGenerator.mzBLP t % 256 +
        256 * (DosExecutableGenerator.mzBLP t / 256 % 256) := rfl
  rw [h, two_byte_mod]

/-- Reading pagesInFile (offset 4) yields the stored value mod 2^16. -/
theorem readUint16_hdr_4 (t rc ipar sp ip : Nat) (rest : List Nat) :
    readUint16 (hdrBytes t rc ipar sp ip ++ rest) 4 =
      DosExecutableGenerator.mzPages t % 65536 := by
  have h : readUint16 (hdrBytes t rc ipar sp ip ++ rest) 4 =
      DosExecutableGenerator.mzPages t % 256 +
        256 * (DosExecutableGenerator.mzPages t / 256 % 256) := rfl
  rw [h, two_byte_mod]

/-- Reading the relocation count (offset 6) yields the count mod 2^16. -/
theorem readUint16_hdr_6 (t rc ipar sp ip : Nat) (rest : List Nat) :
    readUint16 (hdrBytes t rc ipar sp ip ++ rest) 6 = rc % 65536 := by
  have h : readUint16 (hdrBytes t rc ipar sp ip ++ rest) 6 =
      rc % 256 + 256 * (rc / 256 % 256) := rfl
  rw [h, two_byte_mod]

/-- Reading the header paragraph count (offset 8) always yields 2. -/
theorem readUint16_hdr_8 (t rc ipar sp ip : Nat) (rest : List Nat) :
    readUint16 (hdrBytes t rc ipar sp ip ++ rest) 8 = 2 := rfl

/-- Reading the relocation table offset field (offset 24): 32 when any
relocations exist, the legacy placeholder 28 otherwise. -/
theorem readUint16_hdr_24 (t rc ipar sp ip : Nat) (rest : List Nat) :
    readUint16 (hdrBytes t rc ipar sp ip ++ rest) 24 =
      if rc > 0 then 32 else 28 := by
  have h : readUint16 (hdrBytes t rc ipar sp ip ++ rest) 24 =
      (if rc > 0 then 32 else 28) % 256 +
        256 * ((if rc > 0 then 32 else 28) / 256 % 256) := rfl
  rw [h]
  by_cases hrc : rc > 0 <;> simp [hrc]

/-- Total length of an assembled executable: 32 header bytes, 4 bytes per
relocation entry, then the code bytes. -/
theorem createExecutableWithRelocations_length (code : List Nat)
    (R : List RelocationEntry) :
    (DosExecutableGenerator.createExecutableWithRelocations code R {}).length =
      32 + 4 * R.length + code.length := by
  rw [createExecutableWithRelocations_eq]
  simp [hdrBytes_length, generateRelocationTable_length]
  omega

/-- bytesOnLastPage is always between 1 and 512. -/
theorem mzBLP_le (t : Nat) : DosExecutableGenerator.mzBLP t ≤ 512 := by
  unfold DosExecutableGenerator.mzBLP
  split <;> omega

/-- The stored size identity: pages and bytes-on-last-page recover the total
file size used to compute them. -/
theorem mzPages_mzBLP (t : Nat) (ht : 0 < t) :
    (DosExecutableGenerator.mzPages t - 1) * 512 + DosExecutableGenerator.mzBLP t = t := by
  unfold DosExecutableGenerator.mzPages DosExecutableGenerator.mzBLP
  split <;> omega

/-- C1 counterexample: with one relocation entry the executable contains a
4-byte relocation table, but the header size fields do not account for it,
so (pagesInFile - 1) * 512 + bytesOnLastPage is 32 while the image is 36
bytes long. -/
theorem c1_counterexample :
    ¬ ((readUint16 (DosExecutableGenerator.createExecutableWithRelocations []
          [{ offset := 0, segment := 0 }] {}) 4 - 1) * 512 +
        readUint16 (DosExecutableGenerator.createExecutableWithRelocations []
          [{ offset := 0, segment := 0 }] {}) 2 =
        (DosExecutableGenerator.createExecutableWithRelocations []
          [{ offset := 0, segment := 0 }] {}).length) := by
  intro h
  rw [createExecutableWithRelocations_eq] at h
  rw [readUint16_hdr_2, readUint16_hdr_4] at h
  simp [hdrBytes_length, generateRelocationTable_length,
    DosExecutableGenerator.mzBLP, DosExecutableGenerator.mzPages] at h

/-- C1 (amended): for every assembled executable the header size fields
recover the header-plus-code size, which falls short of the true image
length by exactly 4 bytes per relocation entry; the claimed size law holds
exactly when the relocation list is empty.  The bound keeps the 16-bit
pagesInFile field from wrapping. -/
theorem c1_size_law (code : List Nat) (R : List RelocationEntry)
    (h : 32 + code.length ≤ 512 * 65535) :
    (readUint16 (DosExecutableGenerator.createExecutableWithRelocations code R {}) 4 - 1) * 512 +
      readUint16 (DosExecutableGenerator.createExecutableWithRelocations code R {}) 2 +
      4 * R.length =
      (DosExecutableGenerator.createExecutableWithRelocations code R {}).length := by
  rw [createExecutableWithRelocations_length, createExecutableWithRelocations_eq,
    readUint16_hdr_2, readUint16_hdr_4]
  have hp : DosExecutableGenerator.mzPages (32 + code.length) % 65536 =
      DosExecutableGenerator.mzPages (32 + code.length) := by
    apply Nat.mod_eq_of_lt
    unfold DosExecutableGenerator.mzPages
    omega
  have hb : DosExecutableGenerator.mzBLP (32 + code.length) % 65536 =
      DosExecutableGenerator.mzBLP (32 + code.length) := by
    apply Nat.mod_eq_of_lt
    have := mzBLP_le (32 + code.length)
    omega
  rw [hp, hb]
  have hsz := mzPages_mzBLP (32 + code.length) (by omega)
  omega

/-- C1 witness: the amended size relation at a concrete three-byte code
buffer with one relocation entry. -/
theorem c1_size_law_witness :
    32 + ([1, 2, 3] : List Nat).length ≤ 512 * 65535 ∧
      (readUint16 (DosExecutableGenerator.createExecutableWithRelocations [1, 2, 3]
          [{ offset := 5, segment := 6 }] {}) 4 - 1) * 512 +
        readUint16 (DosExecutableGenerator.createExecutableWithRelocations [1, 2, 3]
          [{ offset := 5, segment := 6 }] {}) 2 +
        4 * ([{ offset := 5, segment := 6 }] : List RelocationEntry).length =
        (DosExecutableGenerator.createExecutableWithRelocations [1, 2, 3]
          [{ offset := 5, segment := 6 }] {}).length :=
  ⟨by norm_num, c1_size_law [1, 2, 3] [{ offset := 5, segment := 6 }] (by norm_num)⟩

/-- The relocation table of a concatenated entry list is the concatenation
of the tables. -/
theorem generateRelocationTable_append (A B : List RelocationEntry) :
    DosExecutableGenerator.generateRelocationTable (A ++ B) =
      DosExecutableGenerator.generateRelocationTable A ++
        DosExecutableGenerator.generateRelocationTable B := by
  induction A with
  | nil => rfl
  | cons e rest ih =>
      simp [DosExecutableGenerator.generateRelocationTable, ih]

/-- Byte j of the relocation-table entry written for e, read out of a full
assembled image: it is byte j of the four little-endian entry bytes. -/
theorem getD_assembled_entry (t rc ipar sp ip : Nat) (code : List Nat)
    (pre suf : List RelocationEntry) (e : RelocationEntry) (j : Nat) (hj : j < 4) :
    (hdrBytes t rc ipar sp ip ++
        (DosExecutableGenerator.generateRelocationTable (pre ++ e :: suf) ++ code)).getD
      (32 + (pre.length * 4 + j)) 0 =
      [e.offset % 256, e.offset / 256 % 256,
        e.segment % 256, e.segment / 256 % 256].getD j 0 := by
  rw [List.getD_append_right _ _ _ _ (by rw [hdrBytes_length]; omega)]
  have hidx : 32 + (pre.length * 4 + j) - (hdrBytes t rc ipar sp ip).length =
      pre.length * 4 + j := by rw [hdrBytes_length]; omega
  rw [hidx, generateRelocationTable_append]
  have hsplit : DosExecutableGenerator.generateRelocationTable (e :: suf) =
      [e.offset % 256, e.offset / 256 % 256, e.segment % 256, e.segment / 256 % 256] ++
        DosExecutableGenerator.generateRelocationTable suf := rfl
  rw [hsplit, List.append_assoc, List.append_assoc]
  rw [List.getD_append_right _ _ _ _
    (by rw [generateRelocationTable_length]; omega)]
  have hidx2 : pre.length * 4 + j -
      (DosExecutableGenerator.generateRelocationTable pre).length = j := by
    rw [generateRelocationTable_length]; omega
  rw [hidx2]
  rw [List.getD_append _ _ _ _ (by simp; omega)]

/-- Reading the 16-bit offset field of table entry number pre.length from an
assembled image. -/
theorem readUint16_assembled_offset (t rc ipar sp ip : Nat) (code : List Nat)
    (pre suf : List RelocationEntry) (e : RelocationEntry) :
    readUint16 (hdrBytes t rc ipar sp ip ++
        (DosExecutableGenerator.generateRelocationTable (pre ++ e :: suf) ++ code))
      (32 + pre.length * 4) = e.offset % 65536 := by
  unfold readUint16
  have h0 : 32 + pre.length * 4 = 32 + (pre.length * 4 + 0) := by omega
  have h1 : 32 + pre.length * 4 + 1 = 32 + (pre.length * 4 + 1) := by omega
  rw [h0, getD_assembled_entry t rc ipar sp ip code pre suf e 0 (by omega)]
  rw [show 32 + (pre.length * 4 + 0) + 1 = 32 + (pre.length * 4 + 1) by omega,
    getD_assembled_entry t rc ipar sp ip code pre suf e 1 (by omega)]
  simp [List.getD]
  rw [two_byte_mod]

/-- Reading the 16-bit segment field of table entry number pre.length from
an assembled image. -/
theorem readUint16_assembled_segment (t rc ipar sp ip : Nat) (code : List Nat)
    (pre suf : List RelocationEntry) (e : RelocationEntry) :
    readUint16 (hdrBytes t rc ipar sp ip ++
        (DosExecutableGenerator.generateRelocationTable (pre ++ e :: suf) ++ code))
      (32 + pre.length * 4 + 2) = e.segment % 65536 := by
  unfold readUint16
  rw [show 32 + pre.length * 4 + 2 = 32 + (pre.length * 4 + 2) by omega,
    getD_assembled_entry t rc ipar sp ip code pre suf e 2 (by omega)]
  rw [show 32 + (pre.length * 4 + 2) + 1 = 32 + (pre.length * 4 + 3) by omega,
    getD_assembled_entry t rc ipar sp ip code pre suf e 3 (by omega)]
  simp [List.getD]
  rw [two_byte_mod]

/-- The relocation-reading loop recovers the suffix of entries starting at
index pre.length, for an assembled image whose entries all fit in 16 bits. -/
theorem readRelocLoop_spec (code : List Nat) (R : List RelocationEntry)
    (hfit : ∀ e ∈ R, e.offset < 65536 ∧ e.segment < 65536) :
    ∀ suf : List RelocationEntry, ∀ pre : List RelocationEntry, R = pre ++ suf →
      DosExecutableGenerator.readRelocLoop
          (hdrBytes (32 + code.length) R.length ((code.length + 15) / 16) 512 0 ++
            (DosExecutableGenerator.generateRelocationTable R ++ code))
          32 suf.length pre.length = suf := by
  intro suf
  induction suf with
  | nil => intro pre h; rfl
  | cons e suf ih =>
      intro pre hR
      have hmem : e ∈ R := by rw [hR]; simp
      obtain ⟨hoff, hseg⟩ := hfit e hmem
      have hlen : (hdrBytes (32 + code.length) R.length ((code.length + 15) / 16) 512 0 ++
          (DosExecutableGenerator.generateRelocationTable R ++ code)).length =
          32 + (4 * R.length + code.length) := by
        simp [hdrBytes_length, generateRelocationTable_length]
      have hRlen : R.length = pre.length + (suf.length + 1) := by rw [hR]; simp
      show DosExecutableGenerator.readRelocLoop _ 32 (suf.length + 1) pre.length = e :: suf
      rw [DosExecutableGenerator.readRelocLoop]
      rw [if_neg (by rw [hlen]; omega)]
      have hread1 : readUint16 (hdrBytes (32 + code.length) R.length
          ((code.length + 15) / 16) 512 0 ++
          (DosExecutableGenerator.generateRelocationTable R ++ code))
          (32 + pre.length * 4) = e.offset := by
        rw [hR, readUint16_assembled_offset, Nat.mod_eq_of_lt hoff]
      have hread2 : readUint16 (hdrBytes (32 + code.length) R.length
          ((code.length + 15) / 16) 512 0 ++
          (DosExecutableGenerator.generateRelocationTable R ++ code))
          (32 + pre.length * 4 + 2) = e.segment := by
        rw [hR, readUint16_assembled_segment, Nat.mod_eq_of_lt hseg]
      have htail := ih (pre ++ [e]) (by rw [hR]; simp)
      simp only [List.length_append, List.length_cons, List.length_nil] at htail
      simp only [hread1, hread2, Nat.add_zero] at *
      rw [htail]

/-- Every assembled executable passes isValidMZExecutable. -/
theorem isValid_assembled (code : List Nat) (R : List RelocationEntry) :
    DosExecutableGenerator.isValidMZExecutable
      (DosExecutableGenerator.createExecutableWithRelocations code R {}) = true := by
  rw [createExecutableWithRelocations_eq]
  unfold DosExecutableGenerator.isValidMZExecutable
  have hlen : (hdrBytes (32 + code.length) R.length ((code.length + 15) / 16) 512 0 ++
      (DosExecutableGenerator.generateRelocationTable R ++ code)).length =
      32 + (4 * R.length + code.length) := by
    simp [hdrBytes_length, generateRelocationTable_length]
  rw [if_neg (by omega)]
  rw [readUint16_hdr_0]
  exact beq_self_eq_true 23117

/-- What getRelocationEntries computes on an assembled executable: the
declared count is the entry-list length mod 2^16; a zero count short-cuts to
the empty list, otherwise the loop runs from the declared table offset. -/
theorem getRelocationEntries_assembled (code : List Nat) (R : List RelocationEntry) :
    DosExecutableGenerator.getRelocationEntries
        (DosExecutableGenerator.createExecutableWithRelocations code R {}) =
      if R.length % 65536 = 0 then some []
      else some (DosExecutableGenerator.readRelocLoop
        (hdrBytes (32 + code.length) R.length ((code.length + 15) / 16) 512 0 ++
          (DosExecutableGenerator.generateRelocationTable R ++ code))
        (if R.length > 0 then 32 else 28) (R.length % 65536) 0) := by
  have hv := isValid_assembled code R
  rw [createExecutableWithRelocations_eq] at hv ⊢
  unfold DosExecutableGenerator.getRelocationEntries DosExecutableGenerator.getMZInfo
  rw [hv]
  simp only [if_true]
  rw [readUint16_hdr_6, readUint16_hdr_24]

/-- C2 counterexample: a list of 65536 relocation entries wraps the 16-bit
relocation-count field to 0, so reading the relocations back returns the
empty list instead of the original 65536 entries. -/
theorem c2_counterexample :
    DosExecutableGenerator.getRelocationEntries
        (DosExecutableGenerator.createExecutableWithRelocations []
          (List.replicate 65536 { offset := 0, segment := 0 }) {}) ≠
      some (List.replicate 65536 { offset := 0, segment := 0 }) := by
  rw [getRelocationEntries_assembled]
  rw [if_pos (by rw [List.length_replicate])]
  intro hEq
  have h := Option.some.inj hEq
  have hlen := congrArg List.length h
  rw [List.length_nil, List.length_replicate] at hlen
  exact absurd hlen (by norm_num)

/-- C2 (amended): for every code buffer and every relocation list of fewer
than 65536 entries whose offset and segment values fit in 16 bits, reading
the relocations back from the assembled executable returns exactly the
original list in order. -/
theorem c2_relocation_roundtrip (code : List Nat) (R : List RelocationEntry)
    (hn : R.length < 65536)
    (hfit : ∀ e ∈ R, e.offset < 65536 ∧ e.segment < 65536) :
    DosExecutableGenerator.getRelocationEntries
        (DosExecutableGenerator.createExecutableWithRelocations code R {}) = some R := by
  rw [getRelocationEntries_assembled]
  rw [Nat.mod_eq_of_lt hn]
  by_cases h0 : R.length = 0
  · rw [if_pos h0]
    have : R = [] := List.length_eq_zero.mp h0
    rw [this]
  · rw [if_neg h0]
    rw [if_pos (Nat.pos_of_ne_zero h0)]
    have := readRelocLoop_spec code R hfit R [] rfl
    simp only [List.length_nil] at this
    rw [this]

/-- C2 witness: the amended round-trip at a concrete code buffer and a
concrete two-entry relocation list. -/
theorem c2_witness :
    ([{ offset := 5, segment := 6 }, { offset := 7, segment := 8 }] :
        List RelocationEntry).length < 65536 ∧
      (∀ e ∈ ([{ offset := 5, segment := 6 }, { offset := 7, segment := 8 }] :
        List RelocationEntry), e.offset < 65536 ∧ e.segment < 65536) ∧
      DosExecutableGenerator.getRelocationEntries
          (DosExecutableGenerator.createExecutableWithRelocations [1, 2, 3]
            [{ offset := 5, segment := 6 }, { offset := 7, segment := 8 }] {}) =
        some [{ offset := 5, segment := 6 }, { offset := 7, segment := 8 }] :=
  ⟨by norm_num, by decide,
    c2_relocation_roundtrip [1, 2, 3]
      [{ offset := 5, segment := 6 }, { offset := 7, segment := 8 }]
      (by norm_num) (by decide)⟩

/-- The 16-bit little-endian words of a byte buffer, two bytes per word,
as in the checksum law of the specification; a trailing lone byte stands
alone (the code only ever word-sums even-length padded buffers). -/
def words : List Nat → List Nat
  | b0 :: b1 :: rest => (b0 + 256 * b1) :: words rest
  | [b] => [b]
  | [] => []

/-- Past byte offset 18 the checksum loop sums every remaining word. -/
theorem checksumLoop_after :
    ∀ l : List Nat, l.length % 2 = 0 → ∀ i s : Nat, s < 65536 → 18 < i →
      DosExecutableGenerator.checksumLoop l i s = (s + (words l).sum) % 65536
  | [], _, i, s, hs, _ => by
      simp [DosExecutableGenerator.checksumLoop, words, Nat.mod_eq_of_lt hs]
  | [b], hl, _, _, _, _ => by simp at hl
  | b0 :: b1 :: rest, hl, i, s, hs, hi => by
      have hrl : rest.length % 2 = 0 := by
        simp only [List.length_cons] at hl
        omega
      rw [DosExecutableGenerator.checksumLoop, if_neg (by omega)]
      rw [checksumLoop_after rest hrl (i + 2) _ (Nat.mod_lt _ (by norm_num)) (by omega)]
      rw [Nat.mod_add_mod]
      simp only [words, List.sum_cons]
      congr 1
      omega

/-- At or before byte offset 18 (even offsets only) the checksum loop sums
every word except the one (18 - i) / 2 words ahead, the checksum field. -/
theorem checksumLoop_before :
    ∀ l : List Nat, l.length % 2 = 0 → ∀ i s : Nat, s < 65536 → i % 2 = 0 → i ≤ 18 →
      DosExecutableGenerator.checksumLoop l i s =
        (s + ((words l).set ((18 - i) / 2) 0).sum) % 65536
  | [], _, i, s, hs, _, _ => by
      simp [DosExecutableGenerator.checksumLoop, words, Nat.mod_eq_of_lt hs]
  | [b], hl, _, _, _, _, _ => by simp at hl
  | b0 :: b1 :: rest, hl, i, s, hs, hieven, hile => by
      have hrl : rest.length % 2 = 0 := by
        simp only [List.length_cons] at hl
        omega
      rw [DosExecutableGenerator.checksumLoop]
      by_cases h18 : i = 18
      · rw [if_pos h18]
        rw [checksumLoop_after rest hrl (i + 2) s hs (by omega)]
        subst h18
        simp [words, List.set_cons_zero, List.sum_cons]
      · rw [if_neg h18]
        rw [checksumLoop_before rest hrl (i + 2) _ (Nat.mod_lt _ (by norm_num))
          (by omega) (by omega)]
        rw [Nat.mod_add_mod]
        have hk : (18 - i) / 2 = (18 - (i + 2)) / 2 + 1 := by omega
        rw [hk]
        simp only [words, List.set_cons_succ, List.sum_cons]
        congr 1
        omega

/-- A buffer has one word per two bytes, rounded up. -/
theorem words_length : ∀ l : List Nat, (words l).length = (l.length + 1) / 2
  | [] => by norm_num [words]
  | [b] => by norm_num [words]
  | b0 :: b1 :: rest => by
      simp only [words, List.length_cons, words_length rest]
      omega

/-- Setting the two bytes of word k sets word k to their little-endian
combination and leaves every other word unchanged. -/
theorem words_set_pair :
    ∀ (k : Nat) (L : List Nat) (a b : Nat), 2 * k + 1 < L.length →
      words ((L.set (2 * k) a).set (2 * k + 1) b) = (words L).set k (a + 256 * b)
  | 0, [], _, _, h => by simp at h
  | 0, [x], _, _, h => by simp at h
  | 0, x :: y :: t, a, b, _ => by
      simp [words, List.set_cons_zero, List.set_cons_succ]
  | k + 1, [], _, _, h => by simp at h
  | k + 1, [x], _, _, h => by simp at h
  | k + 1, x :: y :: t, a, b, h => by
      have ht : 2 * k + 1 < t.length := by
        simp only [List.length_cons] at h
        omega
      rw [show 2 * (k + 1) = 2 * k + 1 + 1 by omega]
      simp only [List.set_cons_succ, words]
      rw [words_set_pair k t a b ht]

/-- Replacing entry k by x instead of 0 adds exactly x to the sum. -/
theorem sum_set :
    ∀ (W : List Nat) (k x : Nat), k < W.length →
      (W.set k x).sum = (W.set k 0).sum + x
  | [], _, _, h => by simp at h
  | w :: t, 0, x, _ => by
      simp only [List.set_cons_zero, List.sum_cons]
      omega
  | w :: t, k + 1, x, h => by
      have ht : k < t.length := by
        simp only [List.length_cons] at h
        omega
      simp only [List.set_cons_succ, List.sum_cons, sum_set t k x ht]
      omega

/-- The padded buffer always has even length. -/
theorem evenPad_length_even (buf : List Nat) :
    (DosExecutableGenerator.evenPad buf).length % 2 = 0 := by
  unfold DosExecutableGenerator.evenPad
  split
  · assumption
  · simp only [List.length_append, List.length_cons, List.length_nil]
    omega

/-- Padding commutes with the in-bounds checksum write. -/
theorem evenPad_write18 (buf : List Nat) (h : 19 < buf.length) (c : Nat) :
    DosExecutableGenerator.evenPad (writeUint16 buf 18 c) =
      writeUint16 (DosExecutableGenerator.evenPad buf) 18 c := by
  unfold DosExecutableGenerator.evenPad writeUint16
  have hlen : ((buf.set 18 (c % 256)).set (18 + 1) (c / 256 % 256)).length = buf.length := by
    simp
  rw [hlen]
  split
  · rfl
  · rw [List.set_append_left _ _ (by omega),
      List.set_append_left _ _ (by simp; omega)]

/-- calculateChecksum is the 16-bit negation of the padded word sum with the
checksum word (word 9, bytes 18 and 19) zeroed out. -/
theorem calculateChecksum_eq (buf : List Nat) :
    DosExecutableGenerator.calculateChecksum buf =
      (65536 - ((words (DosExecutableGenerator.evenPad buf)).set 9 0).sum % 65536) % 65536 := by
  unfold DosExecutableGenerator.calculateChecksum
  rw [checksumLoop_before (DosExecutableGenerator.evenPad buf) (evenPad_length_even buf)
    0 0 (by norm_num) (by norm_num) (by norm_num)]
  norm_num

/-- C3: after applyChecksum, the sum of all 16-bit little-endian words of
the buffer (padded with one zero byte if its length is odd) is congruent to
0 modulo 2^16, for every buffer of length at least 20. -/
theorem c3_checksum_law (buf : List Nat) (h : 20 ≤ buf.length) :
    (words (DosExecutableGenerator.evenPad
      (DosExecutableGenerator.applyChecksum buf))).sum % 65536 = 0 := by
  have hclt : DosExecutableGenerator.calculateChecksum buf < 65536 := by
    unfold DosExecutableGenerator.calculateChecksum
    exact Nat.mod_lt _ (by norm_num)
  have h1 : DosExecutableGenerator.applyChecksum buf =
      writeUint16 buf 18 (DosExecutableGenerator.calculateChecksum buf) := rfl
  rw [h1, evenPad_write18 buf (by omega) (DosExecutableGenerator.calculateChecksum buf)]
  have hPBlen : 20 ≤ (DosExecutableGenerator.evenPad buf).length := by
    unfold DosExecutableGenerator.evenPad
    split
    · exact h
    · simp only [List.length_append, List.length_cons, List.length_nil]
      omega
  have h2 : writeUint16 (DosExecutableGenerator.evenPad buf) 18
      (DosExecutableGenerator.calculateChecksum buf) =
      ((DosExecutableGenerator.evenPad buf).set (2 * 9)
        (DosExecutableGenerator.calculateChecksum buf % 256)).set (2 * 9 + 1)
        (DosExecutableGenerator.calculateChecksum buf / 256 % 256) := by
    unfold writeUint16
    norm_num
  rw [h2, words_set_pair 9 _ _ _ (by omega)]
  have hval : DosExecutableGenerator.calculateChecksum buf % 256 +
      256 * (DosExecutableGenerator.calculateChecksum buf / 256 % 256) =
      DosExecutableGenerator.calculateChecksum buf := by
    rw [two_byte_mod]
    exact Nat.mod_eq_of_lt hclt
  rw [hval]
  have h9 : 9 < (words (DosExecutableGenerator.evenPad buf)).length := by
    rw [words_length]
    omega
  rw [sum_set _ 9 _ h9, calculateChecksum_eq]
  omega

/-- C3 witness: the checksum law applied to a concrete 20-byte buffer. -/
theorem c3_witness :
    20 ≤ (List.replicate 20 7 : List Nat).length ∧
      (words (DosExecutableGenerator.evenPad
        (DosExecutableGenerator.applyChecksum (List.replicate 20 7)))).sum % 65536 = 0 :=
  ⟨by simp, c3_checksum_law (List.replicate 20 7) (by simp)⟩

/-- The JavaScript regular-expression whitespace class \s. -/
def isJsSpace (c : Char) : Bool :=
  let n := c.toNat
  n == 9 || n == 10 || n == 11 || n == 12 || n == 13 || n == 32 ||
    n == 160 || n == 5760 || (decide (8192 ≤ n) && decide (n ≤ 8202)) ||
    n == 8232 || n == 8233 || n == 8239 || n == 8287 || n == 12288 || n == 65279

/-- One attempted match of the tail of the pattern
printf\s*\(\s*"([^"]*)"\s*\) at the text directly after the six literal
characters p r i n t f: optional whitespace, an opening parenthesis,
optional whitespace, a double quote, the captured run of non-quote
characters, the closing quote, optional whitespace, a closing parenthesis.
Every quantifier in the pattern is determinate (whitespace runs cannot
overlap the required punctuation and the capture cannot cross a quote), so
this scanner is exactly the regular-expression match.  On success it
returns the capture and the text after the match. -/
def tryPrintfTail (t : List Char) : Option (List Char × List Char) :=
  match t.dropWhile isJsSpace with
  | '(' :: t2 =>
      match t2.dropWhile isJsSpace with
      | '"' :: t4 =>
          let cap := t4.takeWhile (fun c => c != '"')
          match t4.dropWhile (fun c => c != '"') with
          | '"' :: t5 =>
              match t5.dropWhile isJsSpace with
              | ')' :: t7 => some (cap, t7)
              | _ => none
          | _ => none
      | _ => none
  | _ => none

/-- The scanning loop of String.matchAll with the global printf pattern:
try the pattern at each position left to right, resuming directly after the
end of each successful match.  The fuel argument only bounds the recursion:
every step consumes at least one character of the text, so the text length
is always enough fuel and the function computes exactly the matchAll
semantics when called through findPrintfMatches. -/
def findPrintfAux : Nat → List Char → List (List Char)
  | 0, _ => []
  | _ + 1, [] => []
  | fuel + 1, 'p' :: 'r' :: 'i' :: 'n' :: 't' :: 'f' :: t =>
      match tryPrintfTail t with
      | some (cap, r) => cap :: findPrintfAux fuel r
      | none => findPrintfAux fuel ('r' :: 'i' :: 'n' :: 't' :: 'f' :: t)
  | fuel + 1, _ :: rest => findPrintfAux fuel rest

/-- All printf string-literal captures of the source, in source order
(matchAll over the sourceCode). -/
def findPrintfMatches (sourceCode : List Char) : List (List Char) :=
  findPrintfAux sourceCode.length sourceCode

/-- replace(/\\n/g, CR LF): left-to-right, non-overlapping. -/
def replaceBsN : List Char → List Char
  | '\\' :: 'n' :: rest => '\r' :: '\n' :: replaceBsN rest
  | c :: rest => c :: replaceBsN rest
  | [] => []

/-- replace(/\\t/g, tab): left-to-right, non-overlapping. -/
def replaceBsT : List Char → List Char
  | '\\' :: 't' :: rest => '\t' :: replaceBsT rest
  | c :: rest => c :: replaceBsT rest
  | [] => []

/-- replace(/\\r/g, CR): left-to-right, non-overlapping. -/
def replaceBsR : List Char → List Char
  | '\\' :: 'r' :: rest => '\r' :: replaceBsR rest
  | c :: rest => c :: replaceBsR rest
  | [] => []

/-- The three successive escape replacements applied to every captured
printf message. -/
def decodeEscapes (m : List Char) : List Char :=
  replaceBsR (replaceBsT (replaceBsN m))

/-- The UTF-8 bytes of one character (TextEncoder semantics on scalar
values). -/
def utf8Bytes (c : Char) : List Nat :=
  let n := c.toNat
  if n < 128 then [n]
  else if n < 2048 then [192 + n / 64, 128 + n % 64]
  else if n < 65536 then [224 + n / 4096, 128 + n / 64 % 64, 128 + n % 64]
  else [240 + n / 262144, 128 + n / 4096 % 64, 128 + n / 64 % 64, 128 + n % 64]

/-- TextEncoder().encode over a character list. -/
def utf8Encode (s : List Char) : List Nat :=
  (s.map utf8Bytes).flatten

/-- The print-fragment emission loop of generateFromSimpleC: for each
decoded message, a 7-byte fragment MOV AH,09h; MOV DX,dataOffset; INT 21h
with the running data offset stored in the two placeholder bytes
(low byte then high byte, as `off & 0xFF` and `(off >> 8) & 0xFF`), the
offset then advanced by the terminated encoded message length. -/
def buildPrintCodes : List (List Char) → Nat → List (List Nat)
  | [], _ => []
  | m :: rest, dataOffset =>
      [0xB4, 0x09, 0xBA, dataOffset % 256, dataOffset / 256 % 256, 0xCD, 0x21] ::
        buildPrintCodes rest (dataOffset + (utf8Encode (m ++ ['$'])).length)

namespace DosExecutableGenerator

/-- DosExecutableGenerator.generateFromSimpleC: extract the printf string
literals, decode escapes, lay out the DS prologue, the print fragments, the
exit fragment and the terminated message bytes, and wrap the region in an
MZ header. -/
def generateFromSimpleC (sourceCode : List Char) : List Nat :=
  let messages := findPrintfMatches sourceCode
  let dosMessages := messages.map decodeEscapes
  let dsSetupSize := 4
  let printCodeSize := 7
  let exitCodeSize := 6
  let totalPrintCode := messages.length * printCodeSize
  let totalCodeBeforeData := dsSetupSize + totalPrintCode + exitCodeSize
  let setupDS : List Nat := [0x8C, 0xC8, 0x8E, 0xD8]
  let printCodes := buildPrintCodes dosMessages totalCodeBeforeData
  let exitCode := DosSystemCalls.generateExit 0
  let dataBlocks := dosMessages.map (fun m => utf8Encode (m ++ ['$']))
  let codeSegments := [setupDS] ++ printCodes ++ [exitCode] ++ dataBlocks
  let code := codeSegments.flatten
  let header := createMZHeader code.length
  header ++ code

end DosExecutableGenerator

/-- A 7-byte print fragment whose placeholder bytes are the little-endian
low bytes of the given data offset. -/
def printFragment (off : Nat) : List Nat :=
  [0xB4, 0x09, 0xBA, off % 256, off / 256 % 256, 0xCD, 0x21]

/-- The terminated encoded byte blocks of the decoded messages, in order. -/
def literalBlocks (dosMessages : List (List Char)) : List (List Nat) :=
  dosMessages.map (fun m => utf8Encode (m ++ ['$']))

/-- The sum of a constant-7 map is seven times the length. -/
theorem sum_map_const_seven {α : Type} (l : List α) :
    (l.map (fun _ => (7 : Nat))).sum = 7 * l.length := by
  induction l with
  | nil => simp
  | cons x t ih =>
      simp [ih]
      omega

/-- The print-fragment loop in closed form: fragment k carries the base
offset plus the total length of the terminated blocks of messages 0..k-1. -/
theorem buildPrintCodes_closed :
    ∀ (msgs : List (List Char)) (off : Nat),
      buildPrintCodes msgs off = (List.range msgs.length).map
        (fun k => printFragment
          (off + (((literalBlocks msgs).take k).map List.length).sum))
  | [], off => by simp [buildPrintCodes]
  | m :: rest, off => by
      rw [buildPrintCodes,
        buildPrintCodes_closed rest (off + (utf8Encode (m ++ ['$'])).length)]
      have htail : (List.range rest.length).map
          (fun k => printFragment (off + (utf8Encode (m ++ ['$'])).length +
            (((literalBlocks rest).take k).map List.length).sum)) =
          (List.range rest.length).map
          ((fun k => printFragment (off +
            (((literalBlocks (m :: rest)).take k).map List.length).sum)) ∘ Nat.succ) := by
        apply List.map_congr_left
        intro k hk
        simp only [Function.comp_apply, literalBlocks, List.map_cons, List.take_succ_cons,
          List.sum_cons, Nat.add_assoc]
      simp only [List.length_cons, List.range_succ_eq_map, List.map_cons, List.map_map]
      rw [← htail]
      simp [printFragment]

/-- The flattened print fragments occupy exactly 7 bytes per message. -/
theorem printFrag_flatten_length (n : Nat) (f : Nat → Nat) :
    (((List.range n).map (fun k => printFragment (f k))).flatten).length = 7 * n := by
  rw [List.length_flatten, List.map_map]
  have h : (List.range n).map (List.length ∘ fun k => printFragment (f k)) =
      (List.range n).map (fun _ => (7 : Nat)) := by
    apply List.map_congr_left
    intro a _
    rfl
  rw [h, sum_map_const_seven, List.length_range]

/-- Summing the lengths of mapped print fragments gives 7 per element. -/
theorem map_length_printFragment {α : Type} (l : List α) (f : α → Nat) :
    ((l.map (fun k => printFragment (f k))).map List.length).sum = 7 * l.length := by
  rw [List.map_map]
  have h : l.map (List.length ∘ fun k => printFragment (f k)) =
      l.map (fun _ => (7 : Nat)) := by
    apply List.map_congr_left
    intro a _
    rfl
  rw [h, sum_map_const_seven]

/-- C4 helper: the full layout of generateFromSimpleC in closed form.  The
image is the MZ header over the region length, then the 4-byte prologue
copying CS into DS, then one 7-byte print fragment per literal in source
order whose placeholder bytes hold the little-endian value
4 + 7*n + 6 + (lengths of terminated blocks 0..k-1), then the 6-byte exit
fragment, then the terminated decoded literal blocks in the same order. -/
theorem generateFromSimpleC_eq (sourceCode : List Char) :
    DosExecutableGenerator.generateFromSimpleC sourceCode =
      DosExecutableGenerator.createMZHeader
        (4 + 7 * (findPrintfMatches sourceCode).length + 6 +
          ((literalBlocks ((findPrintfMatches sourceCode).map decodeEscapes)).map
            List.length).sum) ++
        ([0x8C, 0xC8, 0x8E, 0xD8] ++
          ((((List.range (findPrintfMatches sourceCode).length).map
            (fun k => printFragment
              (4 + 7 * (findPrintfMatches sourceCode).length + 6 +
                (((literalBlocks ((findPrintfMatches sourceCode).map
                  decodeEscapes)).take k).map List.length).sum))).flatten) ++
            ([0xB4, 0x4C, 0xB0, 0, 0xCD, 0x21] ++
              (literalBlocks ((findPrintfMatches sourceCode).map
                decodeEscapes)).flatten))) := by
  simp only [DosExecutableGenerator.generateFromSimpleC]
  rw [buildPrintCodes_closed]
  simp only [List.length_map]
  have hmap : (List.range (findPrintfMatches sourceCode).length).map
      (fun k => printFragment
        (4 + (findPrintfMatches sourceCode).length * 7 + 6 +
          (((literalBlocks ((findPrintfMatches sourceCode).map decodeEscapes)).take
            k).map List.length).sum)) =
      (List.range (findPrintfMatches sourceCode).length).map
      (fun k => printFragment
        (4 + 7 * (findPrintfMatches sourceCode).length + 6 +
          (((literalBlocks ((findPrintfMatches sourceCode).map decodeEscapes)).take
            k).map List.length).sum)) := by
    apply List.map_congr_left
    intro k _
    congr 1
    omega
  rw [hmap]
  simp only [DosSystemCalls.generateExit, Nat.zero_mod]
  simp only [List.append_assoc, List.flatten_append, List.flatten_cons,
    List.flatten_nil, List.append_nil, List.append_assoc]
  congr 2
  simp only [List.length_append, List.length_cons, List.length_nil,
    List.length_flatten, literalBlocks, map_length_printFragment, List.length_range]
  omega

/-- The total image length: 32 header bytes plus 4-byte prologue plus 7
bytes per literal plus 6-byte exit fragment plus the terminated blocks. -/
theorem generateFromSimpleC_length (sourceCode : List Char) :
    (DosExecutableGenerator.generateFromSimpleC sourceCode).length =
      42 + 7 * (findPrintfMatches sourceCode).length +
        ((literalBlocks ((findPrintfMatches sourceCode).map decodeEscapes)).map
          List.length).sum := by
  rw [generateFromSimpleC_eq]
  have hh : ∀ c : Nat, (DosExecutableGenerator.createMZHeader c).length = 32 := by
    intro c
    rw [DosExecutableGenerator.createMZHeader, createEnhancedMZHeader_eq, hdrBytes_length]
  simp only [List.length_append, List.length_cons, List.length_nil, List.length_flatten,
    map_length_printFragment, List.length_range, hh]
  omega

/-- C4: for every source text, generateFromSimpleC is exactly the 32-byte
MZ header over the region length, then the fixed 4-byte prologue copying CS
into DS, then one 7-byte print fragment per recognized literal in source
order whose two placeholder bytes hold, little-endian, the value
4 + 7*n + 6 + (sum of the lengths of the terminated literal blocks 0..k-1),
then the fixed 6-byte exit fragment, then the decoded terminated literal
blocks in the same order. -/
theorem c4_emitter_layout (sourceCode : List Char) :
    DosExecutableGenerator.generateFromSimpleC sourceCode =
      DosExecutableGenerator.createMZHeader
        (4 + 7 * (findPrintfMatches sourceCode).length + 6 +
          ((literalBlocks ((findPrintfMatches sourceCode).map decodeEscapes)).map
            List.length).sum) ++
        ([0x8C, 0xC8, 0x8E, 0xD8] ++
          ((((List.range (findPrintfMatches sourceCode).length).map
            (fun k => printFragment
              (4 + 7 * (findPrintfMatches sourceCode).length + 6 +
                (((literalBlocks ((findPrintfMatches sourceCode).map
                  decodeEscapes)).take k).map List.length).sum))).flatten) ++
            ([0xB4, 0x4C, 0xB0, 0, 0xCD, 0x21] ++
              (literalBlocks ((findPrintfMatches sourceCode).map
                decodeEscapes)).flatten))) :=
  generateFromSimpleC_eq sourceCode

/-- C10: every image produced by the enhanced generateFromSimpleC has at
least 42 bytes (32-byte header, 4-byte prologue, 6-byte exit fragment), so
the pipeline guard `length = 0 or length > 65535` can only fire through its
oversized branch. -/
theorem c10_min_length_guard (sourceCode : List Char) :
    42 ≤ (DosExecutableGenerator.generateFromSimpleC sourceCode).length ∧
      (((DosExecutableGenerator.generateFromSimpleC sourceCode).length = 0 ∨
          65535 < (DosExecutableGenerator.generateFromSimpleC sourceCode).length) ↔
        65535 < (DosExecutableGenerator.generateFromSimpleC sourceCode).length) := by
  have h := generateFromSimpleC_length sourceCode
  exact ⟨by omega, by omega⟩

/-- C5 counterexample: the generator recognizes only the spelling printf,
so the claimed source text using print( produces an image with no literal
blocks at all; the terminated bytes of "A$" (65, 36) occur nowhere in it. -/
theorem c5_counterexample :
    ¬ ∃ i j : Nat, i < j ∧
      ((DosExecutableGenerator.generateFromSimpleC
        ("int main()\x7b print(\"A\"); print(\"B\"); return 0; \x7d").data).drop i).take 2 =
        [65, 36] ∧
      ((DosExecutableGenerator.generateFromSimpleC
        ("int main()\x7b print(\"A\"); print(\"B\"); return 0; \x7d").data).drop j).take 2 =
        [66, 36] := by
  intro hex
  obtain ⟨i, j, _, hA, _⟩ := hex
  have hnot : ¬ ([65, 36] <:+: DosExecutableGenerator.generateFromSimpleC
      ("int main()\x7b print(\"A\"); print(\"B\"); return 0; \x7d").data) := by decide
  apply hnot
  have hpre : [65, 36] <+: (DosExecutableGenerator.generateFromSimpleC
      ("int main()\x7b print(\"A\"); print(\"B\"); return 0; \x7d").data).drop i := by
    rw [← hA]
    exact List.take_prefix 2 _
  exact hpre.isInfix.trans (List.drop_suffix i _).isInfix

/-- C5 (amended): with the print primitive spelled printf, as the code
recognizes it, the image holds the terminated bytes of "A$" (at offset 56)
at a lower offset than those of "B$" (at offset 58). -/
theorem c5_content_law :
    ∃ i j : Nat, i < j ∧
      ((DosExecutableGenerator.generateFromSimpleC
        ("int main()\x7b printf(\"A\"); printf(\"B\"); return 0; \x7d").data).drop i).take 2 =
        [65, 36] ∧
      ((DosExecutableGenerator.generateFromSimpleC
        ("int main()\x7b printf(\"A\"); printf(\"B\"); return 0; \x7d").data).drop j).take 2 =
        [66, 36] :=
  ⟨56, 58, by norm_num, by decide, by decide⟩

namespace LegacyDosExecutableGenerator

/-- The legacy DosExecutableGenerator.createMZHeader variant: a 28-byte
header buffer (the minimum MZ header size), sized from 28 + codeSize, with
a 256-byte stack pointer and relocation table offset 0x1C. -/
def createMZHeader (codeSize : Nat) : List Nat :=
  let totalSize := 28 + codeSize
  let pages := DosExecutableGenerator.mzPages totalSize
  let bytesOnLastPage := DosExecutableGenerator.mzBLP totalSize
  let h := List.replicate 28 0
  let h := writeUint16 h 0 0x5A4D
  let h := writeUint16 h 2 bytesOnLastPage
  let h := writeUint16 h 4 pages
  let h := writeUint16 h 6 0
  let h := writeUint16 h 8 2
  let h := writeUint16 h 10 0
  let h := writeUint16 h 12 0xFFFF
  let h := writeUint16 h 14 0
  let h := writeUint16 h 16 0x100
  let h := writeUint16 h 18 0
  let h := writeUint16 h 20 0
  let h := writeUint16 h 22 0
  let h := writeUint16 h 24 0x1C
  let h := writeUint16 h 26 0
  h

/-- The legacy generateHelloWorld: hand-written code and message bytes
behind the legacy 28-byte header. -/
def generateHelloWorld : List Nat :=
  let code : List Nat :=
    [0xB4, 0x09, 0xBA, 0x0E, 0x00, 0xCD, 0x21,
     0xB4, 0x4C, 0xB0, 0x00, 0xCD, 0x21,
     0x48, 0x65, 0x6C, 0x6C, 0x6F, 0x20, 0x57, 0x6F, 0x72, 0x6C, 0x64,
     0x21, 0x0D, 0x0A, 0x24]
  let header := createMZHeader code.length
  header ++ code

end LegacyDosExecutableGenerator

/-- C7 counterexample: the legacy generator variant emits images whose
header region is 28 bytes, not 32, and 28 is not paragraph-aligned; its
hello-world image is that 28-byte header followed directly by code. -/
theorem c7_counterexample :
    (LegacyDosExecutableGenerator.createMZHeader 28).length = 28 ∧
      28 % 16 ≠ 0 ∧
      LegacyDosExecutableGenerator.generateHelloWorld.take 28 =
        LegacyDosExecutableGenerator.createMZHeader 28 ∧
      LegacyDosExecutableGenerator.generateHelloWorld.length = 56 := by
  refine ⟨by decide, by decide, by decide, by decide⟩

/-- C7 (amended): the enhanced assembler's header is always exactly 32
bytes, a whole multiple of 16, and every image it assembles stores header
size 2 paragraphs in the header-paragraphs field. -/
theorem c7_enhanced_header_aligned (config : MZConfig) (code : List Nat)
    (R : List RelocationEntry) :
    (DosExecutableGenerator.createEnhancedMZHeader config).length = 32 ∧
      32 % 16 = 0 ∧
      readUint16 (DosExecutableGenerator.createExecutableWithRelocations code R {}) 8 = 2 := by
  refine ⟨?_, by norm_num, ?_⟩
  · rw [createEnhancedMZHeader_eq, hdrBytes_length]
  · rw [createExecutableWithRelocations_eq, readUint16_hdr_8]

/-- String.prototype.includes: the needle occurs somewhere in the hay. -/
def includesStr (hay needle : List Char) : Bool :=
  hay.tails.any (fun suffix => needle.isPrefixOf suffix)

/-- The record returned by WasmCompilerService.validateSourceCode. -/
structure ValidationResult where
  success : Bool
  errors : List (List Char)
  warnings : List (List Char)
deriving DecidableEq, Repr

/-- The CompileResult record (success flag, diagnostics, output name and
optional produced bytes; timing and raw text are not modelled). -/
structure CompileResult where
  success : Bool
  errors : List (List Char)
  warnings : List (List Char)
  outputFile : List Char
  executable : Option (List Nat)
deriving DecidableEq, Repr

namespace WasmCompilerService

/-- WasmCompilerService.validateSourceCode: entry-point check, implicit
declaration warnings, brace balance and parenthesis balance, all evaluated;
success iff no error. -/
def validateSourceCode (sourceCode sourceFile : List Char) : ValidationResult :=
  let mainErrors :=
    if !includesStr sourceCode ("int main").data then
      [sourceFile ++ (":1: error: 'main' function not found").data]
    else []
  let warnings :=
    (if includesStr sourceCode ("printf").data &&
        !includesStr sourceCode ("#include <stdio.h>").data then
      [sourceFile ++ (":1: warning: implicit declaration of function 'printf'").data]
    else []) ++
    (if includesStr sourceCode ("scanf").data &&
        !includesStr sourceCode ("#include <stdio.h>").data then
      [sourceFile ++ (":1: warning: implicit declaration of function 'scanf'").data]
    else []) ++
    (if includesStr sourceCode ("strlen").data &&
        !includesStr sourceCode ("#include <string.h>").data then
      [sourceFile ++ (":1: warning: implicit declaration of function 'strlen'").data]
    else [])
  let braceErrors :=
    if sourceCode.count (Char.ofNat 123) ≠ sourceCode.count (Char.ofNat 125) then
      [sourceFile ++ (":1: error: mismatched braces").data]
    else []
  let parenErrors :=
    if sourceCode.count '(' ≠ sourceCode.count ')' then
      [sourceFile ++ (":1: error: mismatched parentheses").data]
    else []
  let errors := mainErrors ++ braceErrors ++ parenErrors
  { success := errors.isEmpty, errors := errors, warnings := warnings }

/-- WasmCompilerService.compile: validate, then generate through
DosExecutableGenerator.generateFromSimpleC with the empty/oversized image
guard; diagnostics, timing and rawOutput strings are not modelled. -/
def compile (sourceCode sourceFile outputFile : List Char) : CompileResult :=
  let validationResult := validateSourceCode sourceCode sourceFile
  if !validationResult.success then
    { success := false, errors := validationResult.errors,
      warnings := validationResult.warnings, outputFile := outputFile,
      executable := none }
  else
    let executable := DosExecutableGenerator.generateFromSimpleC sourceCode
    if executable.length = 0 ∨ executable.length > 65535 then
      { success := false, errors := [("Failed to generate valid DOS executable").data],
        warnings := validationResult.warnings, outputFile := outputFile,
        executable := none }
    else
      { success := true, errors := [],
        warnings := validationResult.warnings, outputFile := outputFile,
        executable := some executable }

end WasmCompilerService

namespace CompilerService

/-- The fixed per-project guest-store path. -/
def projectPath (name : List Char) : List Char :=
  ("/C/PROJECT/").data ++ name

/-- CompilerService.realCompile over an abstract guest store: read the
source at the fixed project path (a failed read returns the single
not-found error immediately), validate only the entry point, emit the
implicit-printf warning, generate, guard, and on success record the one
write of the executable to the output path.  The second component lists the
writes performed against the store. -/
def realCompile (store : List Char → Option (List Char))
    (sourceFile outputFile : List Char) :
    CompileResult × List (List Char × List Nat) :=
  match store (projectPath sourceFile) with
  | none =>
      ({ success := false,
         errors := [("Source file not found: ").data ++ sourceFile],
         warnings := [], outputFile := outputFile, executable := none }, [])
  | some sourceCode =>
      let errors :=
        if !includesStr sourceCode ("int main").data then
          [sourceFile ++ (":1: error: 'main' function not found").data]
        else []
      let warnings :=
        if includesStr sourceCode ("printf").data &&
            !includesStr sourceCode ("#include <stdio.h>").data then
          [sourceFile ++ (":1: warning: implicit declaration of function 'printf'").data]
        else []
      if !errors.isEmpty then
        ({ success := false, errors := errors, warnings := warnings,
           outputFile := outputFile, executable := none }, [])
      else
        let executable := DosExecutableGenerator.generateFromSimpleC sourceCode
        if executable.length = 0 ∨ executable.length > 65535 then
          ({ success := false,
             errors := [("Failed to generate valid DOS executable").data],
             warnings := warnings, outputFile := outputFile, executable := none }, [])
        else
          ({ success := true, errors := [], warnings := warnings,
             outputFile := outputFile, executable := some executable },
           [(projectPath outputFile, executable)])

end CompilerService

/-- C6: a source with two opening parentheses and one closing parenthesis
(entry point present, braces balanced) is a parenthesis mismatch, yet
CompilerService.realCompile performs no parenthesis check and compiles it
successfully with no errors, while WasmCompilerService.validateSourceCode
rejects the same source: the two backends do not enforce the check
uniformly. -/
theorem c6_paren_check_not_uniform :
    (("int main() \x7b return 0; \x7d (").data.count '(' ≠
        ("int main() \x7b return 0; \x7d (").data.count ')') ∧
      (CompilerService.realCompile
        (fun p => if p = CompilerService.projectPath ("MAIN.C").data then
          some ("int main() \x7b return 0; \x7d (").data else none)
        ("MAIN.C").data ("MAIN.EXE").data).1.success = true ∧
      (CompilerService.realCompile
        (fun p => if p = CompilerService.projectPath ("MAIN.C").data then
          some ("int main() \x7b return 0; \x7d (").data else none)
        ("MAIN.C").data ("MAIN.EXE").data).1.errors = [] ∧
      (WasmCompilerService.validateSourceCode ("int main() \x7b return 0; \x7d (").data
        ("MAIN.C").data).success = false := by
  refine ⟨by decide, by decide, by decide, by decide⟩

/-- Under a failed entry-point check the validator reports the main error
first and fails. -/
theorem validateSourceCode_noMain (sourceCode sourceFile : List Char)
    (hmain : includesStr sourceCode ("int main").data = false) :
    (WasmCompilerService.validateSourceCode sourceCode sourceFile).success = false ∧
      (sourceFile ++ (":1: error: 'main' function not found").data) ∈
        (WasmCompilerService.validateSourceCode sourceCode sourceFile).errors := by
  unfold WasmCompilerService.validateSourceCode
  rw [hmain]
  simp

/-- C8: whenever the source lacks the token sequence int main, both compile
paths return success = false together with the line-1 entry-point error
message, regardless of the rest of the source. -/
theorem c8_entry_point_required (sourceCode sourceFile outputFile : List Char)
    (store : List Char → Option (List Char)) (sourceFile2 outputFile2 : List Char)
    (hmain : includesStr sourceCode ("int main").data = false)
    (hstore : store (CompilerService.projectPath sourceFile2) = some sourceCode) :
    (WasmCompilerService.compile sourceCode sourceFile outputFile).success = false ∧
      (sourceFile ++ (":1: error: 'main' function not found").data) ∈
        (WasmCompilerService.compile sourceCode sourceFile outputFile).errors ∧
      (CompilerService.realCompile store sourceFile2 outputFile2).1.success = false ∧
      (sourceFile2 ++ (":1: error: 'main' function not found").data) ∈
        (CompilerService.realCompile store sourceFile2 outputFile2).1.errors := by
  obtain ⟨hvs, hvm⟩ := validateSourceCode_noMain sourceCode sourceFile hmain
  refine ⟨?_, ?_, ?_, ?_⟩
  · simp [WasmCompilerService.compile, hvs]
  · simp only [WasmCompilerService.compile, hvs, Bool.not_false, if_true]
    exact hvm
  · simp [CompilerService.realCompile, hstore, hmain]
  · simp [CompilerService.realCompile, hstore, hmain]

/-- C8 witness: both compile paths at a concrete entry-point-free source. -/
theorem c8_witness :
    includesStr ("hello").data ("int main").data = false ∧
      ((fun p => if p = CompilerService.projectPath ("A.C").data then
          some (("hello").data) else none)
        (CompilerService.projectPath ("A.C").data) = some (("hello").data)) ∧
      (WasmCompilerService.compile ("hello").data ("T.C").data ("T.EXE").data).success =
        false ∧
      (("T.C").data ++ (":1: error: 'main' function not found").data) ∈
        (WasmCompilerService.compile ("hello").data ("T.C").data ("T.EXE").data).errors ∧
      (CompilerService.realCompile
        (fun p => if p = CompilerService.projectPath ("A.C").data then
          some (("hello").data) else none) ("A.C").data ("A.EXE").data).1.success = false ∧
      (("A.C").data ++ (":1: error: 'main' function not found").data) ∈
        (CompilerService.realCompile
          (fun p => if p = CompilerService.projectPath ("A.C").data then
            some (("hello").data) else none) ("A.C").data ("A.EXE").data).1.errors := by
  refine ⟨by decide, by decide, ?_⟩
  have h := c8_entry_point_required ("hello").data ("T.C").data ("T.EXE").data
    (fun p => if p = CompilerService.projectPath ("A.C").data then
      some (("hello").data) else none) ("A.C").data ("A.EXE").data
    (by decide) (by decide)
  exact ⟨h.1, h.2.1, h.2.2.1, h.2.2.2⟩

/-- C9: when the guest store has nothing at the project source path, the
pipeline returns the single not-found error with success = false, produces
no executable, and performs no store write at all. -/
theorem c9_source_not_found (store : List Char → Option (List Char))
    (sourceFile outputFile : List Char)
    (h : store (CompilerService.projectPath sourceFile) = none) :
    CompilerService.realCompile store sourceFile outputFile =
      ({ success := false,
         errors := [("Source file not found: ").data ++ sourceFile],
         warnings := [], outputFile := outputFile, executable := none }, []) := by
  unfold CompilerService.realCompile
  rw [h]

/-- C9 witness: the read-failure path at a concrete empty store. -/
theorem c9_witness :
    CompilerService.realCompile (fun _ => none) ("MAIN.C").data ("MAIN.EXE").data =
      ({ success := false,
         errors := [("Source file not found: ").data ++ ("MAIN.C").data],
         warnings := [], outputFile := ("MAIN.EXE").data, executable := none }, []) :=
  c9_source_not_found (fun _ => none) ("MAIN.C").data ("MAIN.EXE").data rfl
